import Mathlib

set_option maxRecDepth 8000

/-!
Verification of `gelbooru_deep_search.py`: the deep-search partitioner that
splits a booru tag search into contiguous post-ID windows, each fitting the
API's pagination cap.

Shallow embedding conventions:

* The external search client ("probe") is modelled canonically: a query's
  matching posts form a fixed finite set of IDs, represented by the strictly
  ascending list `ids : List Nat`.  A probe with tags `sort:id:asc` and
  `id:>minId`, page size `limit` and zero-based page index `page` returns the
  corresponding slice of the ascending filtered list (`probePage`).  A probe
  with `limit = 1` and ascending sort returns the lowest matching ID
  (`get_first_id_async`); with the API's default most-recent-first order it
  returns the highest matching ID (`get_last_id_async`).  Claims quantified
  over "every probe honouring the sort and ID filters over a fixed finite
  set" are therefore quantified over `ids`.
* Python `int | None` results become `Option Nat` / the `FindResult`
  inductive; a raised exception becomes an `Except` error value
  (`SearchError`) or the `FindResult.indexError` constructor (for
  `posts[-1]` on an empty list).
* The two `while` loops of the source are written with an explicit fuel
  argument so that every definition is structural and executable.  The fuel
  chosen at the call sites is proved sufficient (`..._no_outOfFuel` lemmas):
  the `outOfFuel` results are unreachable from the entry points, so the fuel
  is semantically invisible.
* Python integer arithmetic in the binary search (`left`, `right`, `mid`)
  is modelled on `Int`, matching `//` on the non-negative values that occur;
  page indices handed to the probe are clamped with `Int.toNat` (they are
  at least 1 in every reachable probe).
-/

/-- Model of the `BooruConfig` dataclass.  Only the two limit fields are kept:
the `api` URL and the credential fields are consumed exclusively by the HTTP
client, which is outside the model.  The constructor validation
(`__attrs_post_init__`) is modelled separately by `booru_config_checked`. -/
structure BooruConfig where
  max_posts_per_search : Nat
  max_posts_per_page : Nat
deriving DecidableEq, Repr

/-- `BooruConfig.max_pages`: `max_posts_per_search // max_posts_per_page`. -/
def BooruConfig.max_pages (c : BooruConfig) : Nat :=
  c.max_posts_per_search / c.max_posts_per_page

/-- Outcome of `_find_last_id_linear_async` / `_find_last_id_binary_async`:
`found id` models returning an `int`, `noMore` models returning `None`,
`indexError` models the `IndexError` that `posts[-1]` raises on an empty
list, and `outOfFuel` is the modelling artifact for fuel exhaustion (proved
unreachable from the entry points). -/
inductive FindResult where
  | found (id : Nat)
  | noMore
  | indexError
  | outOfFuel
deriving DecidableEq, Repr

/-- Errors that `get_deep_search_steps_async` can surface, plus the
fuel-exhaustion artifact. -/
inductive SearchError where
  | forbiddenTags
  | emptySearch
  | indexError
  | outOfFuel
deriving DecidableEq, Repr

/-- The canonical probe: page `page` (zero based, `limit` posts per page) of
the query restricted by `id:>minId` and sorted ascending by ID
(`sort:id:asc`).  `ids` is the ascending list of all matching post IDs. -/
def probePage (ids : List Nat) (minId limit page : Nat) : List Nat :=
  (((ids.filter fun i => decide (minId < i)).drop (page * limit)).take limit)

/-- Model of `_get_first_id_async`: probe with `sort:id:asc`, limit 1 —
the lowest matching ID, or `none` when the query matches nothing. -/
def get_first_id_async (ids : List Nat) : Option Nat :=
  ids.head?

/-- Model of `_get_last_id_async`: probe with the API's default
most-recent-first order, limit 1 — the highest matching ID, or `none`
when the query matches nothing. -/
def get_last_id_async (ids : List Nat) : Option Nat :=
  ids.getLast?

/-- `_add_reverse_tag`: appends the ascending sort directive. -/
def add_reverse_tag (tags : List String) : List String :=
  tags ++ [("sort:id:asc")]

/-- `_add_min_tag`: appends the strict lower-bound ID filter. -/
def add_min_tag (tags : List String) (min_id : Nat) : List String :=
  tags ++ [("id:>") ++ toString min_id]

/-- `_add_reverse_and_min_tag`: both of the above.  `probePage` is the
semantic interpretation of a query carrying these two tags. -/
def add_reverse_and_min_tag (tags : List String) (min_id : Nat) : List String :=
  add_min_tag (add_reverse_tag tags) min_id

/-- Python `str.split()` (no separator): split on runs of whitespace,
dropping empty tokens.  Written on the character list so that it evaluates
inside the kernel. -/
def py_split (s : String) : List String :=
  ((s.data.splitOnP fun c => c.isWhitespace).filter fun t => t ≠ []).map String.mk

/-- Python `str.lower()` (ASCII-relevant part, as `Char.toLower`). -/
def py_lower (s : String) : String :=
  String.mk (s.data.map Char.toLower)

/-- Tag preparation in `get_deep_search_steps_async`: each caller-supplied
string is split on whitespace and the flattened token list is lower-cased.
The Python `str` overload wraps the single string in a one-element list
first, so `List String` input covers both overloads. -/
def prepare_tags (tags : List String) : List String :=
  (tags.flatMap py_split).map py_lower

/-- The final step of `_find_last_id_binary_async` after the loop exits:
re-probe the recorded last full page and return its last post's ID
(`posts[-1].id`; `indexError` when that page is empty). -/
def last_full_page_probe (cfg : BooruConfig) (ids : List Nat) (minId : Nat)
    (last_full_page : Int) : FindResult :=
  match (probePage ids minId cfg.max_posts_per_page last_full_page.toNat).getLast? with
  | some i => .found i
  | none => .indexError

/-- The `while left <= right` loop of `_find_last_id_binary_async`.
`left`, `right`, `last_full_page` are the Python ints; `fuel` bounds the
number of iterations (see `bsearchLoop_no_outOfFuel`; the loop condition is
checked before fuel is consumed, so fuel only matters on iterations the
Python loop actually runs). -/
def bsearchLoop (cfg : BooruConfig) (ids : List Nat) (minId : Nat) :
    Nat → Int → Int → Int → FindResult
  | 0, left, right, last_full_page =>
    if left ≤ right then .outOfFuel
    else last_full_page_probe cfg ids minId last_full_page
  | fuel + 1, left, right, last_full_page =>
    if left ≤ right then
      let mid := (left + right) / 2
      let posts := probePage ids minId cfg.max_posts_per_page mid.toNat
      if 0 < posts.length ∧ posts.length < cfg.max_posts_per_page then
        match posts.getLast? with
        | some i => .found i
        | none => .indexError
      else if posts.length = cfg.max_posts_per_page then
        bsearchLoop cfg ids minId fuel (mid + 1) right mid
      else
        bsearchLoop cfg ids minId fuel left (mid - 1) last_full_page
    else last_full_page_probe cfg ids minId last_full_page

/-- `_find_last_id_binary_async`: binary search over pages `1 .. max_pages-1`
with `last_full_page = 0`; on falling through, one more probe of the last
full page.  The fuel `max_pages + 1` strictly exceeds the initial interval
width, hence is never exhausted (`bsearchLoop_no_outOfFuel`). -/
def find_last_id_binary_async (cfg : BooruConfig) (ids : List Nat) (minId : Nat) : FindResult :=
  bsearchLoop cfg ids minId (cfg.max_pages + 1) 1 ((cfg.max_pages : Int) - 1) 0

/-- `_find_last_id_linear_async`: probe the page at index `max_pages`
("overshoot" probe); if full, its last ID closes the window.  Otherwise
probe page 0: partial → its last ID closes the final window; empty → no
more results; full → binary-search fallback. -/
def find_last_id_linear_async (cfg : BooruConfig) (ids : List Nat) (minId : Nat) : FindResult :=
  let posts_last_page := probePage ids minId cfg.max_posts_per_page cfg.max_pages
  if posts_last_page.length = cfg.max_posts_per_page then
    match posts_last_page.getLast? with
    | some i => .found i
    | none => .indexError
  else
    let posts_first_page := probePage ids minId cfg.max_posts_per_page 0
    if 0 < posts_first_page.length ∧ posts_first_page.length < cfg.max_posts_per_page then
      match posts_first_page.getLast? with
      | some i => .found i
      | none => .indexError
    else if posts_first_page.length = 0 then
      .noMore
    else
      find_last_id_binary_async cfg ids minId

/-- The `while step_start < last_id` loop of `get_deep_search_steps_async`.
Python's `if not step_end` is falsy for `None` and for the integer `0`, so
both `noMore` and `found 0` close the partition with a final window
`(step_start, last_id)`.  `fuel` bounds the iteration count (see
`stepsLoop_no_outOfFuel`: each appended boundary strictly increases
`step_start`). -/
def stepsLoop (cfg : BooruConfig) (ids : List Nat) (last_id : Nat) :
    Nat → Nat → List (Nat × Nat) → Except SearchError (List (Nat × Nat))
  | 0, step_start, acc =>
    if step_start < last_id then .error .outOfFuel else .ok acc
  | fuel + 1, step_start, acc =>
    if step_start < last_id then
      match find_last_id_linear_async cfg ids step_start with
      | .found step_end =>
        if step_end = 0 then .ok (acc ++ [(step_start, last_id)])
        else stepsLoop cfg ids last_id fuel step_end (acc ++ [(step_start, step_end)])
      | .noMore => .ok (acc ++ [(step_start, last_id)])
      | .indexError => .error .indexError
      | .outOfFuel => .error .outOfFuel
    else .ok acc

/-- `get_deep_search_steps_async`: validate tags, bootstrap `first_id` and
`last_id` (Python truthiness: `None` and `0` both fail the presence check),
then chain windows.  The fuel `last_id - first_id + 1` is sufficient because
every window boundary strictly increases `step_start`
(`get_deep_search_steps_no_outOfFuel`). -/
def get_deep_search_steps_async (cfg : BooruConfig) (ids : List Nat) (tags0 : List String) :
    Except SearchError (List (Nat × Nat)) :=
  let tags := prepare_tags tags0
  if ("sort:id:asc") ∈ tags ∨ ("sort:id:desc") ∈ tags then
    .error .forbiddenTags
  else
    match get_first_id_async ids, get_last_id_async ids with
    | some first_id, some last_id =>
      if first_id = 0 ∨ last_id = 0 then .error .emptySearch
      else stepsLoop cfg ids last_id (last_id - first_id + 1) first_id []
    | _, _ => .error .emptySearch

/-- `format_steps_to_searches`: one rendered query per window, in order;
the first window uses the inclusive `id:>=` lower bound, all later windows
the strict `id:>`, and every window the inclusive `id:<=` upper bound. -/
def format_steps_to_searches (tags : List String) (steps : List (Nat × Nat)) :
    List (List String) :=
  steps.enum.map fun p =>
    if p.1 = 0 then
      tags ++ [("id:>=") ++ toString p.2.1, ("id:<=") ++ toString p.2.2]
    else
      tags ++ [("id:>") ++ toString p.2.1, ("id:<=") ++ toString p.2.2]

/-- Command-line arguments relevant to configuration resolution
(`argparse` defaults: `None` for the two limits). -/
structure Args where
  api : String
  max_per_search : Option Nat
  max_per_page : Option Nat
deriving DecidableEq, Repr

/-- The `KNOWN_API` preset table (API URLs omitted, as in `BooruConfig`). -/
def KNOWN_API : List (String × BooruConfig) :=
  [(("gelbooru"), ⟨20000, 100⟩), (("safebooru"), ⟨200000, 1000⟩), (("rule34"), ⟨200000, 1000⟩)]

/-- `KNOWN_API.get(api)` (Python dict lookup). -/
def KNOWN_API_get (api : String) : Option BooruConfig :=
  (KNOWN_API.find? fun p => p.1 == api).map Prod.snd

/-- Python truthiness of an `int | None` argument: `None` and `0` are falsy. -/
def opt_falsy : Option Nat → Bool
  | none => true
  | some n => n == 0

/-- `_check_have_limits_on_custom_booru`: for an unknown API identifier both
limit options must be supplied (truthy); `some msg` models `parser.error`,
which aborts before any network activity. -/
def check_have_limits_on_custom_booru (args : Args) : Option String :=
  if (KNOWN_API_get args.api).isSome then none
  else if opt_falsy args.max_per_search && opt_falsy args.max_per_page then
    some ("When using custom booru API --max-per-search and --max-per-page should be specified")
  else if opt_falsy args.max_per_search then
    some ("When using custom booru API --max-per-search should be specified")
  else if opt_falsy args.max_per_page then
    some ("When using custom booru API --max-per-page should be specified")
  else none

/-- The `BooruConfig` constructor validation relevant to the limit fields
(`__attrs_post_init__`): both limits truthy and positive, page size not
exceeding the search cap; `none` models a raised `ValueError`. -/
def booru_config_checked (mps mpp : Nat) : Option BooruConfig :=
  if mps = 0 then none
  else if mpp = 0 then none
  else if mps < mpp then none
  else some ⟨mps, mpp⟩

/-- `_get_booru_config`: preset lookup, else construct from the caller's
options.  Note: the source passes `args.max_per_search` to BOTH
`max_posts_per_search` and `max_posts_per_page` (line 465); `none` models
the `ValueError` raised when `max_per_search` is absent. -/
def get_booru_config (args : Args) : Option BooruConfig :=
  match KNOWN_API_get args.api with
  | some c => some c
  | none =>
    match args.max_per_search with
    | some s => booru_config_checked s s
    | none => none

/-! ### Membership facts about the canonical probe -/

theorem getLast?_eq_some_mem {α : Type} {l : List α} {x : α} (h : l.getLast? = some x) :
    x ∈ l := by
  obtain ⟨hne, rfl⟩ := List.mem_getLast?_eq_getLast (Option.mem_def.mpr h)
  exact List.getLast_mem hne

theorem probePage_mem {ids : List Nat} {minId limit page x : Nat}
    (hx : x ∈ probePage ids minId limit page) : x ∈ ids ∧ minId < x := by
  unfold probePage at hx
  have h1 := List.mem_of_mem_drop (List.mem_of_mem_take hx)
  have h2 := List.mem_filter.mp h1
  exact ⟨h2.1, of_decide_eq_true h2.2⟩

theorem last_full_page_probe_found {cfg : BooruConfig} {ids : List Nat} {minId : Nat}
    {lf : Int} {e : Nat} (h : last_full_page_probe cfg ids minId lf = .found e) :
    e ∈ ids ∧ minId < e := by
  unfold last_full_page_probe at h
  split at h
  case h_1 i heq =>
    injection h with h'
    subst h'
    exact probePage_mem (getLast?_eq_some_mem heq)
  case h_2 => cases h

theorem bsearchLoop_found {cfg : BooruConfig} {ids : List Nat} {minId : Nat} :
    ∀ (fuel : Nat) (left right lf : Int) (e : Nat),
      bsearchLoop cfg ids minId fuel left right lf = .found e → e ∈ ids ∧ minId < e := by
  intro fuel
  induction fuel with
  | zero =>
    intro left right lf e h
    simp only [bsearchLoop] at h
    split at h
    · cases h
    · exact last_full_page_probe_found h
  | succ n ih =>
    intro left right lf e h
    simp only [bsearchLoop] at h
    split at h
    · split at h
      · split at h
        case h_1 i heq =>
          injection h with h'
          subst h'
          exact probePage_mem (getLast?_eq_some_mem heq)
        case h_2 => cases h
      · split at h
        · exact ih _ _ _ _ h
        · exact ih _ _ _ _ h
    · exact last_full_page_probe_found h

theorem find_last_id_linear_found {cfg : BooruConfig} {ids : List Nat} {minId e : Nat}
    (h : find_last_id_linear_async cfg ids minId = .found e) : e ∈ ids ∧ minId < e := by
  simp only [find_last_id_linear_async] at h
  split at h
  · split at h
    case h_1 i heq =>
      injection h with h'
      subst h'
      exact probePage_mem (getLast?_eq_some_mem heq)
    case h_2 => cases h
  · split at h
    · split at h
      case h_1 i heq =>
        injection h with h'
        subst h'
        exact probePage_mem (getLast?_eq_some_mem heq)
      case h_2 => cases h
    · split at h
      · cases h
      · unfold find_last_id_binary_async at h
        exact bsearchLoop_found _ _ _ _ _ h

/-! ### Existence of a boundary under the canonical probe -/

theorem getLast?_isSome_of_length_pos {α : Type} (l : List α) (h : 0 < l.length) :
    ∃ x, l.getLast? = some x := by
  have hne : l ≠ [] := by
    intro he
    subst he
    simp at h
  exact Option.isSome_iff_exists.mp (List.getLast?_isSome.mpr hne)

theorem bsearchLoop_isFound {cfg : BooruConfig} {ids : List Nat} {minId : Nat} :
    ∀ (fuel : Nat) (left right lf : Int),
      (probePage ids minId cfg.max_posts_per_page lf.toNat).length = cfg.max_posts_per_page →
      0 < cfg.max_posts_per_page →
      (right + 1 - left).toNat ≤ fuel →
      ∃ e, bsearchLoop cfg ids minId fuel left right lf = .found e := by
  intro fuel
  induction fuel with
  | zero =>
    intro left right lf hfull hL hfuel
    have hlr : ¬ left ≤ right := by omega
    simp only [bsearchLoop, if_neg hlr]
    unfold last_full_page_probe
    obtain ⟨x, hx⟩ := getLast?_isSome_of_length_pos
      (probePage ids minId cfg.max_posts_per_page lf.toNat) (by omega)
    rw [hx]
    exact ⟨x, rfl⟩
  | succ n ih =>
    intro left right lf hfull hL hfuel
    by_cases hlr : left ≤ right
    · simp only [bsearchLoop, if_pos hlr]
      set mid := (left + right) / 2 with hmid
      split
      next hcond =>
        obtain ⟨x, hx⟩ := getLast?_isSome_of_length_pos _ hcond.1
        rw [hx]
        exact ⟨x, rfl⟩
      next hcond =>
        split
        next hfull2 =>
          exact ih (mid + 1) right mid hfull2 hL (by omega)
        next hnf =>
          exact ih left (mid - 1) lf hfull hL (by omega)
    · simp only [bsearchLoop, if_neg hlr]
      unfold last_full_page_probe
      obtain ⟨x, hx⟩ := getLast?_isSome_of_length_pos
        (probePage ids minId cfg.max_posts_per_page lf.toNat) (by omega)
      rw [hx]
      exact ⟨x, rfl⟩

theorem find_last_id_linear_isFound {cfg : BooruConfig} {ids : List Nat} {minId : Nat}
    (hL : 0 < cfg.max_posts_per_page) {x : Nat} (hx : x ∈ ids) (hgt : minId < x) :
    ∃ e, find_last_id_linear_async cfg ids minId = .found e := by
  have hxf : x ∈ ids.filter fun i => decide (minId < i) :=
    List.mem_filter.mpr ⟨hx, decide_eq_true hgt⟩
  have hflen : 0 < (ids.filter fun i => decide (minId < i)).length :=
    List.length_pos.mpr (List.ne_nil_of_mem hxf)
  have hfp : (probePage ids minId cfg.max_posts_per_page 0).length =
      min cfg.max_posts_per_page (ids.filter fun i => decide (minId < i)).length := by
    unfold probePage
    rw [Nat.zero_mul, List.drop_zero, List.length_take]
  simp only [find_last_id_linear_async]
  split
  next h1 =>
    obtain ⟨e, he⟩ := getLast?_isSome_of_length_pos
      (probePage ids minId cfg.max_posts_per_page cfg.max_pages) (by omega)
    rw [he]
    exact ⟨e, rfl⟩
  next h1 =>
    split
    next h2 =>
      obtain ⟨e, he⟩ := getLast?_isSome_of_length_pos _ h2.1
      rw [he]
      exact ⟨e, rfl⟩
    next h2 =>
      split
      next h3 =>
        exfalso
        rw [hfp] at h3
        omega
      next h3 =>
        have hfull0 : (probePage ids minId cfg.max_posts_per_page (0 : Int).toNat).length =
            cfg.max_posts_per_page := by
          have h4 : (probePage ids minId cfg.max_posts_per_page 0).length =
              cfg.max_posts_per_page := by
            rw [hfp] at h2 h3 ⊢
            omega
          simpa using h4
        unfold find_last_id_binary_async
        exact bsearchLoop_isFound _ 1 ((cfg.max_pages : Int) - 1) 0 hfull0 hL (by omega)

/-! ### The window-chaining loop -/

theorem stepsLoop_not_lt {cfg : BooruConfig} {ids : List Nat} {last_id step_start : Nat}
    (h : ¬ step_start < last_id) (fuel : Nat) (acc : List (Nat × Nat)) :
    stepsLoop cfg ids last_id fuel step_start acc = .ok acc := by
  cases fuel <;> simp [stepsLoop, h]

theorem getLast?_cons_of_ne_nil {α : Type} {a : α} {l : List α} (h : l ≠ []) :
    (a :: l).getLast? = l.getLast? := by
  cases l with
  | nil => exact absurd rfl h
  | cons b t => rw [List.getLast?_cons_cons]

theorem pairwise_le_getLast : ∀ {ids : List Nat}, ids.Pairwise (· < ·) →
    ∀ {l : Nat}, ids.getLast? = some l → ∀ x ∈ ids, x ≤ l := by
  intro ids
  induction ids with
  | nil =>
    intro _ l hl
    cases hl
  | cons a t ih =>
    intro hp l hl x hx
    cases t with
    | nil =>
      simp only [List.getLast?_singleton, Option.some.injEq] at hl
      subst hl
      simp only [List.mem_singleton] at hx
      omega
    | cons b t2 =>
      rw [List.getLast?_cons_cons] at hl
      rcases List.mem_cons.mp hx with rfl | hx2
      · exact le_of_lt ((List.pairwise_cons.mp hp).1 l (getLast?_eq_some_mem hl))
      · exact ih (List.pairwise_cons.mp hp).2 hl x hx2

theorem stepsLoop_spec {cfg : BooruConfig} {ids : List Nat} {last_id : Nat}
    (hL : 0 < cfg.max_posts_per_page)
    (hlmem : last_id ∈ ids) (hmax : ∀ x ∈ ids, x ≤ last_id) :
    ∀ (fuel step_start : Nat) (acc : List (Nat × Nat)),
      step_start < last_id → last_id - step_start ≤ fuel →
      ∃ ws, stepsLoop cfg ids last_id fuel step_start acc = .ok (acc ++ ws) ∧
        ws.head?.map Prod.fst = some step_start ∧
        ws.getLast?.map Prod.snd = some last_id ∧
        List.Chain' (fun a b => a.2 = b.1) ws ∧
        ∀ w ∈ ws, w.1 < w.2 := by
  intro fuel
  induction fuel with
  | zero =>
    intro s acc hs hfuel
    exact absurd hs (by omega)
  | succ n ih =>
    intro s acc hs hfuel
    obtain ⟨e, he⟩ := find_last_id_linear_isFound hL hlmem hs
    obtain ⟨hemem, hegt⟩ := find_last_id_linear_found he
    have hele : e ≤ last_id := hmax e hemem
    have hene : ¬ e = 0 := by omega
    by_cases helt : e < last_id
    · obtain ⟨ws, hws, hhead, hlast, hchain, hlt⟩ := ih e (acc ++ [(s, e)]) helt (by omega)
      have hwsne : ws ≠ [] := by
        intro hn
        rw [hn] at hhead
        simp at hhead
      refine ⟨(s, e) :: ws, ?_, ?_, ?_, ?_, ?_⟩
      · simp only [stepsLoop, if_pos hs, he, if_neg hene]
        rw [hws, List.append_assoc, List.singleton_append]
      · simp
      · rw [getLast?_cons_of_ne_nil hwsne]
        exact hlast
      · rw [List.chain'_cons']
        refine ⟨?_, hchain⟩
        intro y hy
        rw [Option.mem_def.mp hy] at hhead
        simp only [Option.map_some', Option.some.injEq] at hhead
        exact hhead.symm
      · intro w hw
        rcases List.mem_cons.mp hw with rfl | hw2
        · exact hegt
        · exact hlt w hw2
    · have heq : e = last_id := by omega
      subst heq
      refine ⟨[(s, e)], ?_, by simp, by simp, List.chain'_singleton _, ?_⟩
      · simp only [stepsLoop, if_pos hs, he, if_neg hene]
        exact stepsLoop_not_lt (by omega) n (acc ++ [(s, e)])
      · intro w hw
        simp only [List.mem_singleton] at hw
        subst hw
        exact hs

/-! ### The fuel chosen at the entry points is never exhausted -/

theorem bsearchLoop_no_outOfFuel {cfg : BooruConfig} {ids : List Nat} {minId : Nat} :
    ∀ (fuel : Nat) (left right lf : Int), (right + 1 - left).toNat ≤ fuel →
      bsearchLoop cfg ids minId fuel left right lf ≠ .outOfFuel := by
  intro fuel
  induction fuel with
  | zero =>
    intro left right lf hfuel
    have hlr : ¬ left ≤ right := by omega
    simp only [bsearchLoop, if_neg hlr]
    unfold last_full_page_probe
    split <;> simp
  | succ n ih =>
    intro left right lf hfuel
    by_cases hlr : left ≤ right
    · simp only [bsearchLoop, if_pos hlr]
      set mid := (left + right) / 2 with hmid
      split
      · split <;> simp
      · split
        · exact ih _ _ _ (by omega)
        · exact ih _ _ _ (by omega)
    · simp only [bsearchLoop, if_neg hlr]
      unfold last_full_page_probe
      split <;> simp
  
theorem find_last_id_linear_no_outOfFuel {cfg : BooruConfig} {ids : List Nat} {minId : Nat} :
    find_last_id_linear_async cfg ids minId ≠ .outOfFuel := by
  simp only [find_last_id_linear_async]
  split
  · split <;> simp
  · split
    · split <;> simp
    · split
      · simp
      · unfold find_last_id_binary_async
        exact bsearchLoop_no_outOfFuel _ _ _ _ (by omega)

theorem stepsLoop_no_outOfFuel {cfg : BooruConfig} {ids : List Nat} {last_id : Nat} :
    ∀ (fuel step_start : Nat) (acc : List (Nat × Nat)), last_id - step_start ≤ fuel →
      stepsLoop cfg ids last_id fuel step_start acc ≠ .error .outOfFuel := by
  intro fuel
  induction fuel with
  | zero =>
    intro s acc hfuel
    rw [stepsLoop_not_lt (by omega)]
    simp
  | succ n ih =>
    intro s acc hfuel
    by_cases hs : s < last_id
    · simp only [stepsLoop, if_pos hs]
      cases hfind : find_last_id_linear_async cfg ids s with
      | found e =>
        have hgt := (find_last_id_linear_found hfind).2
        show (if e = 0 then _ else _) ≠ _
        by_cases he0 : e = 0
        · rw [if_pos he0]
          simp
        · rw [if_neg he0]
          exact ih e _ (by omega)
      | noMore => simp
      | indexError => simp
      | outOfFuel => exact absurd hfind find_last_id_linear_no_outOfFuel
    · rw [stepsLoop_not_lt hs]
      simp

theorem get_deep_search_steps_no_outOfFuel (cfg : BooruConfig) (ids : List Nat)
    (tags0 : List String) :
    get_deep_search_steps_async cfg ids tags0 ≠ .error .outOfFuel := by
  simp only [get_deep_search_steps_async]
  split
  · simp
  · split
    · split
      · simp
      · exact stepsLoop_no_outOfFuel _ _ _ (by omega)
    · simp

/-! ### Rendering helper -/

theorem map_fmt_enumFrom (tags : List String) :
    ∀ (l : List (Nat × Nat)) (k : Nat), k ≠ 0 →
      (l.enumFrom k).map
          (fun p =>
            if p.1 = 0 then
              tags ++ [("id:>=") ++ toString p.2.1, ("id:<=") ++ toString p.2.2]
            else
              tags ++ [("id:>") ++ toString p.2.1, ("id:<=") ++ toString p.2.2]) =
        l.map fun t => tags ++ [("id:>") ++ toString t.1, ("id:<=") ++ toString t.2] := by
  intro l
  induction l with
  | nil =>
    intro k hk
    rfl
  | cons t l2 ih =>
    intro k hk
    rw [show (t :: l2).enumFrom k = (k, t) :: l2.enumFrom (k + 1) from rfl, List.map_cons,
      List.map_cons, ih (k + 1) (by omega)]
    congr 1
    rw [if_neg hk]

/-! ### Claims -/

/-- C1: the spec expects the single-window partition `[(42, 42)]` for a query
matching exactly the one post 42 under the 20000/100 limits; the code's
`while step_start < last_id` loop is skipped when `first_id = last_id`, so it
returns the empty window list instead (a code bug: the caller then issues no
sub-search at all and never retrieves the post). -/
theorem C1_single_post_no_window :
    get_deep_search_steps_async ⟨20000, 100⟩ [42] [] = .ok [] := rfl

/-- C2 counterexample: for matching IDs 1..150 under
`maxResultsPerSearch = 200, maxResultsPerPage = 100` the code does NOT return
the two windows `[(1, 100), (100, 150)]` claimed by the spec. -/
theorem C2_counterexample :
    get_deep_search_steps_async ⟨200, 100⟩ (List.range' 1 150) [] ≠
      .ok [(1, 100), (100, 150)] := by
  have h : get_deep_search_steps_async ⟨200, 100⟩ (List.range' 1 150) [] = .ok [(1, 150)] := rfl
  rw [h]
  intro hc
  injection hc with hc2
  exact absurd hc2 (by decide)

/-- C2 (amended): for matching IDs 1..150 under the 200/100 limits the
partitioner returns exactly ONE window, `(1, 150)` (start inclusive): the 149
posts above ID 1 fit on the two allowed pages, so the linear probe's
binary-search fallback finds the true end of the result set at once. -/
theorem C2_amended_single_window :
    get_deep_search_steps_async ⟨200, 100⟩ (List.range' 1 150) [] = .ok [(1, 150)] := rfl

/-- C3 counterexample: a non-empty matching set (the single post 7) for which
the returned window list is empty, so the first window's start does not equal
the lowest matching ID and the windows do not cover `[firstId, lastId]`. -/
theorem C3_counterexample :
    get_deep_search_steps_async ⟨200, 100⟩ [7] [] = .ok [] ∧
      (([] : List (Nat × Nat)).head?.map Prod.fst ≠ some 7) := by
  exact ⟨rfl, by simp⟩

/-- C3 (amended): for every canonical probe over a fixed finite matching set
(strictly ascending `ids`) with at least two IDs (`f < l`) whose lowest ID is
nonzero, and any tag list without the reserved sort directives, the window
list is a covering chain partition: the first window starts at the lowest
matching ID `f`, each later window starts at the previous window's end
(start exclusive), the last window ends at the highest matching ID `l`, and
every window is non-degenerate (`start < end`) — no gaps, no double-counted
IDs. -/
theorem C3_partition_covering (cfg : BooruConfig) (ids : List Nat) (tags0 : List String)
    (f l : Nat) (hL : 0 < cfg.max_posts_per_page) (hsorted : ids.Pairwise (· < ·))
    (hf : ids.head? = some f) (hl : ids.getLast? = some l) (hf0 : 0 < f) (hfl : f < l)
    (ht1 : ("sort:id:asc") ∉ prepare_tags tags0)
    (ht2 : ("sort:id:desc") ∉ prepare_tags tags0) :
    ∃ steps, get_deep_search_steps_async cfg ids tags0 = .ok steps ∧
      steps.head?.map Prod.fst = some f ∧
      steps.getLast?.map Prod.snd = some l ∧
      List.Chain' (fun a b => a.2 = b.1) steps ∧
      ∀ w ∈ steps, w.1 < w.2 := by
  have hlmem : l ∈ ids := getLast?_eq_some_mem hl
  have hmax := pairwise_le_getLast hsorted hl
  obtain ⟨ws, hws, hhead, hlast, hchain, hlt⟩ :=
    stepsLoop_spec hL hlmem hmax (l - f + 1) f [] hfl (by omega)
  refine ⟨ws, ?_, hhead, hlast, hchain, hlt⟩
  simp only [get_deep_search_steps_async]
  rw [if_neg (by push_neg; exact ⟨ht1, ht2⟩)]
  unfold get_first_id_async get_last_id_async
  rw [hf, hl]
  simp only []
  rw [if_neg (by omega)]
  rw [hws]
  simp

/-- Witness for C3: limits 200/100 and matching IDs `[1, 2, 3]` produce a
covering chain partition from 1 to 3. -/
theorem C3_partition_covering_witness :
    ∃ steps, get_deep_search_steps_async ⟨200, 100⟩ [1, 2, 3] [("cat")] = .ok steps ∧
      steps.head?.map Prod.fst = some 1 ∧
      steps.getLast?.map Prod.snd = some 3 ∧
      List.Chain' (fun a b => a.2 = b.1) steps ∧
      ∀ w ∈ steps, w.1 < w.2 :=
  C3_partition_covering ⟨200, 100⟩ [1, 2, 3] [("cat")] 1 3 (by decide) (by decide) rfl
    (by decide) (by decide) (by decide) (by decide) (by decide)

/-- C5: whenever the split and lower-cased token list contains `sort:id:asc`
or `sort:id:desc`, the computation fails with ForbiddenTags, and it does so
for EVERY matching set `ids` — the result does not depend on the probe, which
is the model-level statement that no probe is issued before the failure. -/
theorem C5_forbidden_tags (cfg : BooruConfig) (ids : List Nat) (tags0 : List String)
    (h : ("sort:id:asc") ∈ prepare_tags tags0 ∨ ("sort:id:desc") ∈ prepare_tags tags0) :
    get_deep_search_steps_async cfg ids tags0 = .error .forbiddenTags := by
  simp only [get_deep_search_steps_async]
  rw [if_pos h]

/-- Witness for C5: mixed-case `SORT:ID:ASC` inside a larger token string is
split, lower-cased and rejected. -/
theorem C5_forbidden_tags_witness :
    get_deep_search_steps_async ⟨20000, 100⟩ [3] [("foo SORT:ID:ASC")] =
      .error .forbiddenTags :=
  C5_forbidden_tags ⟨20000, 100⟩ [3] [("foo SORT:ID:ASC")] (Or.inl (by decide))

/-- C6: for every valid tag list (no reserved sort directive) and a probe
matching zero posts (`ids = []`), the computation fails with EmptySearch —
decided right after the two bootstrap probes (`first_id`/`last_id`), before
any partition window is attempted; the mid-partition "no more results"
signal is a different value (`FindResult.noMore`), not this error. -/
theorem C6_empty_search (cfg : BooruConfig) (tags0 : List String)
    (h1 : ("sort:id:asc") ∉ prepare_tags tags0)
    (h2 : ("sort:id:desc") ∉ prepare_tags tags0) :
    get_deep_search_steps_async cfg [] tags0 = .error .emptySearch := by
  simp only [get_deep_search_steps_async]
  rw [if_neg (by push_neg; exact ⟨h1, h2⟩)]
  rfl

/-- Witness for C6: an ordinary tag and an empty matching set. -/
theorem C6_empty_search_witness :
    get_deep_search_steps_async ⟨20000, 100⟩ [] [("cat")] = .error .emptySearch :=
  C6_empty_search ⟨20000, 100⟩ [("cat")] (by decide) (by decide)

/-- C7: the boundary finder is strictly monotonic — whenever
`_find_last_id_linear_async` returns a boundary ID (`found e`, rather than
the no-more-results signal), `e` comes from a probe filtered by `id:>minId`,
hence `minId < e`.  Holds for every matching set `ids`. -/
theorem C7_boundary_gt_min (cfg : BooruConfig) (ids : List Nat) (minId e : Nat)
    (h : find_last_id_linear_async cfg ids minId = .found e) : minId < e :=
  (find_last_id_linear_found h).2

/-- Witness for C7: matching IDs `[1, 2, 3]`, `minId = 1`, boundary 3. -/
theorem C7_boundary_gt_min_witness : 1 < 3 :=
  C7_boundary_gt_min ⟨200, 100⟩ [1, 2, 3] 1 3 (by decide)

/-- C9: for every tag list and every non-empty window list, the formatter
yields exactly one query per window, in window order: the first window's
query appends `id:>=start` and `id:<=end`, every later window's query
appends `id:>start` and `id:<=end`. -/
theorem C9_format_one_query_per_window (tags : List String) (s : Nat × Nat)
    (rest : List (Nat × Nat)) :
    format_steps_to_searches tags (s :: rest) =
      (tags ++ [("id:>=") ++ toString s.1, ("id:<=") ++ toString s.2]) ::
        (rest.map fun t => tags ++ [("id:>") ++ toString t.1, ("id:<=") ++ toString t.2]) := by
  unfold format_steps_to_searches
  rw [show (s :: rest).enum = (0, s) :: rest.enumFrom 1 from rfl, List.map_cons]
  rw [map_fmt_enumFrom tags rest 1 (by omega)]
  rfl

/-- C10: the presence checks after the two bootstrap probes use Python
truthiness (`if not first_id or not last_id`), so a NON-EMPTY matching set
whose lowest post ID is 0 is misclassified as an empty search: the model
raises EmptySearch for the set `{0, 7}`. -/
theorem C10_zero_id_empty_search :
    get_deep_search_steps_async ⟨20000, 100⟩ [0, 7] [] = .error .emptySearch ∧
      ([0, 7] : List Nat) ≠ [] := ⟨rfl, by decide⟩

/-- C8: for an unknown API identifier with both limits supplied
(`--max-per-search 500 --max-per-page 100`) the option check passes, yet the
constructed config carries the `--max-per-search` value in BOTH fields —
`max_posts_per_page` is 500, not the supplied 100 (source line 465 passes
`args.max_per_search` twice).  Supplying only one limit is still rejected
before any network activity. -/
theorem C8_custom_config_page_bug :
    check_have_limits_on_custom_booru ⟨("https://example.com/"), some 500, some 100⟩ = none ∧
      get_booru_config ⟨("https://example.com/"), some 500, some 100⟩ =
        some ⟨500, 500⟩ ∧
      check_have_limits_on_custom_booru ⟨("https://example.com/"), some 500, none⟩ =
        some ("When using custom booru API --max-per-page should be specified") :=
  ⟨rfl, rfl, rfl⟩

/-! ### Symbolic evaluation of the probe on an interval of IDs -/

theorem range'_drop : ∀ (k s n : Nat), (List.range' s n).drop k = List.range' (s + k) (n - k) := by
  intro k
  induction k with
  | zero =>
    intro s n
    simp
  | succ m ih =>
    intro s n
    cases n with
    | zero => simp
    | succ n2 =>
      rw [List.range'_succ, List.drop_succ_cons, ih (s + 1) n2]
      congr 1 <;> omega

theorem range'_take : ∀ (k s n : Nat), (List.range' s n).take k = List.range' s (min k n) := by
  intro k
  induction k with
  | zero =>
    intro s n
    simp
  | succ m ih =>
    intro s n
    cases n with
    | zero => simp
    | succ n2 =>
      rw [List.range'_succ, List.take_succ_cons, ih (s + 1) n2,
        show min (m + 1) (n2 + 1) = min m n2 + 1 from by omega, List.range'_succ]

theorem filter_gt_range' (s n a : Nat) (ha : a < s) :
    (List.range' s n).filter (fun i => decide (a < i)) = List.range' s n :=
  List.filter_eq_self.mpr fun x hx => decide_eq_true (by
    have := (List.mem_range'_1.mp hx).1
    omega)

theorem probePage_range' (p : Nat) :
    probePage (List.range' 1 20000) 1 100 p =
      List.range' (2 + p * 100) (min 100 (19999 - p * 100)) := by
  unfold probePage
  rw [show List.range' 1 20000 = 1 :: List.range' 2 19999 from by
      rw [show (20000 : Nat) = 19999 + 1 from rfl, List.range'_succ]]
  rw [List.filter_cons_of_neg (by simp)]
  rw [filter_gt_range' 2 19999 1 (by omega), range'_drop, range'_take]

theorem probePage_range'_length (p : Nat) :
    (probePage (List.range' 1 20000) 1 100 p).length = min 100 (19999 - p * 100) := by
  rw [probePage_range', List.length_range']

/-! ### One-step equations for the binary-search loop -/

theorem bsearchLoop_step_full {cfg : BooruConfig} {ids : List Nat} {minId fuel : Nat}
    {left right lf : Int} (mid : Nat) (hlr : left ≤ right)
    (hmid : (left + right) / 2 = (mid : Int))
    (hfull : (probePage ids minId cfg.max_posts_per_page mid).length =
      cfg.max_posts_per_page) :
    bsearchLoop cfg ids minId (fuel + 1) left right lf =
      bsearchLoop cfg ids minId fuel ((mid : Int) + 1) right (mid : Int) := by
  simp only [bsearchLoop, if_pos hlr, hmid, Int.toNat_natCast]
  rw [if_neg (by omega), if_pos hfull]

theorem bsearchLoop_step_nonfull {cfg : BooruConfig} {ids : List Nat} {minId fuel : Nat}
    {left right lf : Int} (mid e : Nat) (hlr : left ≤ right)
    (hmid : (left + right) / 2 = (mid : Int))
    (hpart : 0 < (probePage ids minId cfg.max_posts_per_page mid).length ∧
      (probePage ids minId cfg.max_posts_per_page mid).length < cfg.max_posts_per_page)
    (he : (probePage ids minId cfg.max_posts_per_page mid).getLast? = some e) :
    bsearchLoop cfg ids minId (fuel + 1) left right lf = .found e := by
  simp only [bsearchLoop, if_pos hlr, hmid, Int.toNat_natCast]
  rw [if_pos hpart, he]

/-- When the overshoot probe is not full and the page-0 probe is full,
`_find_last_id_linear_async` reaches the binary-search fallback. -/
theorem find_last_id_linear_binary_case {cfg : BooruConfig} {ids : List Nat} {minId : Nat}
    (h1 : (probePage ids minId cfg.max_posts_per_page cfg.max_pages).length ≠
      cfg.max_posts_per_page)
    (h2 : (probePage ids minId cfg.max_posts_per_page 0).length = cfg.max_posts_per_page)
    (hL : 0 < cfg.max_posts_per_page) :
    find_last_id_linear_async cfg ids minId = find_last_id_binary_async cfg ids minId := by
  simp only [find_last_id_linear_async]
  rw [if_neg h1, if_neg (by omega), if_neg (by omega)]

/-- C4: for matching IDs 1..20000 under `maxResultsPerSearch = 20000,
maxResultsPerPage = 100` and `minId = 1` (the first matching ID), the
boundary finder takes the binary-search fallback: the overshoot probe at
page `max_pages` is not full and the page-0 probe is full (so neither
decides the boundary), and both the fallback and the whole linear finder
compute the boundary 20000 exactly. -/
theorem C4_binary_fallback_exact :
    (probePage (List.range' 1 20000) 1 100
        ((⟨20000, 100⟩ : BooruConfig).max_pages)).length ≠ 100 ∧
    (probePage (List.range' 1 20000) 1 100 0).length = 100 ∧
    find_last_id_binary_async ⟨20000, 100⟩ (List.range' 1 20000) 1 = .found 20000 ∧
    find_last_id_linear_async ⟨20000, 100⟩ (List.range' 1 20000) 1 = .found 20000 := by
  have hmp : (⟨20000, 100⟩ : BooruConfig).max_pages = 200 := by
    norm_num [BooruConfig.max_pages]
  have hfull : ∀ p : Nat, p ≤ 198 →
      (probePage (List.range' 1 20000) 1 100 p).length = 100 := by
    intro p hp
    rw [probePage_range'_length]
    omega
  have hp0 : (probePage (List.range' 1 20000) 1 100 0).length = 100 := by
    rw [probePage_range'_length]
    omega
  have hp200 : (probePage (List.range' 1 20000) 1 100 200).length = 0 := by
    rw [probePage_range'_length]
    omega
  have h199 : (probePage (List.range' 1 20000) 1 100 199).getLast? = some 20000 := by
    rw [probePage_range' 199]
    norm_num [List.getLast?_range']
  have h199len : (probePage (List.range' 1 20000) 1 100 199).length = 99 := by
    rw [probePage_range'_length]
    omega
  have h0 : find_last_id_binary_async ⟨20000, 100⟩ (List.range' 1 20000) 1 =
      bsearchLoop ⟨20000, 100⟩ (List.range' 1 20000) 1 201 1 199 0 := by
    unfold find_last_id_binary_async
    norm_num [BooruConfig.max_pages]
  have e1 : bsearchLoop ⟨20000, 100⟩ (List.range' 1 20000) 1 201 1 199 0 =
      bsearchLoop ⟨20000, 100⟩ (List.range' 1 20000) 1 200 101 199 100 :=
    @bsearchLoop_step_full ⟨20000, 100⟩ (List.range' 1 20000) 1 200 1 199 0 100
      (by decide) (by decide) (hfull 100 (by norm_num))
  have e2 : bsearchLoop ⟨20000, 100⟩ (List.range' 1 20000) 1 200 101 199 100 =
      bsearchLoop ⟨20000, 100⟩ (List.range' 1 20000) 1 199 151 199 150 :=
    @bsearchLoop_step_full ⟨20000, 100⟩ (List.range' 1 20000) 1 199 101 199 100 150
      (by decide) (by decide) (hfull 150 (by norm_num))
  have e3 : bsearchLoop ⟨20000, 100⟩ (List.range' 1 20000) 1 199 151 199 150 =
      bsearchLoop ⟨20000, 100⟩ (List.range' 1 20000) 1 198 176 199 175 :=
    @bsearchLoop_step_full ⟨20000, 100⟩ (List.range' 1 20000) 1 198 151 199 150 175
      (by decide) (by decide) (hfull 175 (by norm_num))
  have e4 : bsearchLoop ⟨20000, 100⟩ (List.range' 1 20000) 1 198 176 199 175 =
      bsearchLoop ⟨20000, 100⟩ (List.range' 1 20000) 1 197 188 199 187 :=
    @bsearchLoop_step_full ⟨20000, 100⟩ (List.range' 1 20000) 1 197 176 199 175 187
      (by decide) (by decide) (hfull 187 (by norm_num))
  have e5 : bsearchLoop ⟨20000, 100⟩ (List.range' 1 20000) 1 197 188 199 187 =
      bsearchLoop ⟨20000, 100⟩ (List.range' 1 20000) 1 196 194 199 193 :=
    @bsearchLoop_step_full ⟨20000, 100⟩ (List.range' 1 20000) 1 196 188 199 187 193
      (by decide) (by decide) (hfull 193 (by norm_num))
  have e6 : bsearchLoop ⟨20000, 100⟩ (List.range' 1 20000) 1 196 194 199 193 =
      bsearchLoop ⟨20000, 100⟩ (List.range' 1 20000) 1 195 197 199 196 :=
    @bsearchLoop_step_full ⟨20000, 100⟩ (List.range' 1 20000) 1 195 194 199 193 196
      (by decide) (by decide) (hfull 196 (by norm_num))
  have e7 : bsearchLoop ⟨20000, 100⟩ (List.range' 1 20000) 1 195 197 199 196 =
      bsearchLoop ⟨20000, 100⟩ (List.range' 1 20000) 1 194 199 199 198 :=
    @bsearchLoop_step_full ⟨20000, 100⟩ (List.range' 1 20000) 1 194 197 199 196 198
      (by decide) (by decide) (hfull 198 (by norm_num))
  have e8 : bsearchLoop ⟨20000, 100⟩ (List.range' 1 20000) 1 194 199 199 198 =
      .found 20000 :=
    @bsearchLoop_step_nonfull ⟨20000, 100⟩ (List.range' 1 20000) 1 193 199 199 198 199 20000
      (by decide) (by decide) (by rw [h199len]; decide) h199
  have hbin : find_last_id_binary_async ⟨20000, 100⟩ (List.range' 1 20000) 1 =
      .found 20000 := by
    rw [h0, e1, e2, e3, e4, e5, e6, e7, e8]
  have hlin : find_last_id_linear_async ⟨20000, 100⟩ (List.range' 1 20000) 1 =
      .found 20000 := by
    have hstep := @find_last_id_linear_binary_case ⟨20000, 100⟩ (List.range' 1 20000) 1
      (by show (probePage (List.range' 1 20000) 1 100 200).length ≠ 100
          rw [hp200]
          norm_num)
      (by show (probePage (List.range' 1 20000) 1 100 0).length = 100
          exact hp0)
      (by decide)
    rw [hstep]
    exact hbin
  refine ⟨?_, hp0, hbin, hlin⟩
  rw [hmp, hp200]
  norm_num
